import Mathlib

/-!
Shallow embedding of the MERN task/project-management backend
(`backend/controllers/project|task|comment|auth controllers` and the
Mongoose models `Project`, `Task`, `Comment`, `User`).

Conventions of the embedding:
* Mongo ObjectIds are `String`s; the source always compares them via
  `toString()` equality, so the populated/unpopulated distinction of
  documents collapses to plain string equality here.
* `new Date()` timestamps are `Nat` values passed in explicitly (`now`).
* A controller returning `res.status(s).json({success:false, message})`
  is modelled as `Except ApiError _` with `ApiError.mk s message`; on the
  error path the database is unchanged (the source mutates only after all
  checks pass, via `save`/`findByIdAndUpdate`/`deleteMany`).
* Mongoose `Model.findById` is `List.find?` on the id; a `save` /
  `findByIdAndUpdate` writes back by mapping over the collection and
  replacing the documents with the matching id.
* Mongoose document validation (`enum`, `required`) runs before the
  user-level `pre('save')` hooks and is modelled by explicit checks that
  produce the controller's catch-all 500 error.
-/

namespace TaskApp

/-- An error response `res.status(status).json({success:false, message})`. -/
structure ApiError where
  status : Nat
  message : String
deriving Repr, DecidableEq

/-- One entry of `Project.members` (`{user, role, joinedAt}`). -/
structure Member where
  user : String
  role : String
  joinedAt : Nat
deriving Repr, DecidableEq

/-- The `Project` document (models/Project.model.js). -/
structure Project where
  id : String
  name : String
  description : String
  status : String
  priority : String
  owner : String
  members : List Member
  startDate : Nat
  dueDate : Option Nat
  completedAt : Option Nat
  tags : List String
  color : String
  isPublic : Bool
  isArchived : Bool
  createdAt : Nat
  updatedAt : Nat
deriving Repr, DecidableEq

/-- One embedded subtask (`{title, isCompleted, completedAt}`, with own id). -/
structure Subtask where
  id : String
  title : String
  isCompleted : Bool
  completedAt : Option Nat
deriving Repr, DecidableEq

/-- The `Task` document (models/Task.model.js).  Attachments, watchers,
dependencies and the hour counters are carried but never inspected by the
operations below. -/
structure Task where
  id : String
  title : String
  description : String
  status : String
  priority : String
  project : String
  creator : String
  assignee : Option String
  subtasks : List Subtask
  startDate : Option Nat
  dueDate : Option Nat
  completedAt : Option Nat
  estimatedHours : Nat
  actualHours : Nat
  tags : List String
  order : Int
  watchers : List String
  isArchived : Bool
  createdAt : Nat
deriving Repr, DecidableEq

/-- One entry of `Comment.reactions` (`{user, type}`). -/
structure Reaction where
  user : String
  type : String
deriving Repr, DecidableEq

/-- The `Comment` document (models/Comment.model.js). -/
structure Comment where
  id : String
  content : String
  task : String
  author : String
  mentions : List String
  isEdited : Bool
  editedAt : Option Nat
  parentComment : Option String
  reactions : List Reaction
  isDeleted : Bool
  createdAt : Nat
deriving Repr, DecidableEq

/-- The `User` document (models/User.model.js), restricted to the fields the
modelled operations read. -/
structure User where
  id : String
  name : String
  email : String
  password : String
  role : String
  department : String
  isActive : Bool
deriving Repr, DecidableEq

/-- The document store: one collection per model. -/
structure DB where
  projects : List Project
  tasks : List Task
  comments : List Comment
  users : List User
deriving Repr, DecidableEq

/-- `req.user` after the `protect` middleware: an authenticated identity with
its global role. -/
structure Requester where
  id : String
  role : String
deriving Repr, DecidableEq

/-- `ProjectSchema.methods.isMember`: true iff the user id equals the owner id
or appears among `members[].user` (comparison by identifier). -/
def Project.isMember (p : Project) (userId : String) : Bool :=
  p.owner == userId || p.members.any (fun m => m.user == userId)

/-- Valid values of the per-project member `role` enum. -/
def memberRoles : List String := ["viewer", "member", "admin"]

/-- Valid values of the project `status` enum. -/
def projectStatuses : List String :=
  ["planning", "in-progress", "on-hold", "completed", "cancelled"]

/-- Valid values of the task `status` enum (kanban columns). -/
def taskStatuses : List String := ["todo", "in-progress", "in-review", "completed"]

/-- Valid values of the shared `priority` enum. -/
def priorities : List String := ["low", "medium", "high", "critical"]

/-- Valid values of the user `role` enum. -/
def userRoles : List String := ["user", "manager", "admin"]

/-- `Model.findById` on the projects collection. -/
def findProject (db : DB) (pid : String) : Option Project :=
  db.projects.find? (fun p => p.id == pid)

/-- `Model.findById` on the tasks collection. -/
def findTask (db : DB) (tid : String) : Option Task :=
  db.tasks.find? (fun t => t.id == tid)

/-- `Model.findById` on the comments collection. -/
def findComment (db : DB) (cid : String) : Option Comment :=
  db.comments.find? (fun c => c.id == cid)

/-- Write a modified document back into its collection by id
(`document.save()` / `findByIdAndUpdate`). -/
def writeBack {α : Type} (key : α → String) (k : String) (f : α → α)
    (l : List α) : List α :=
  l.map (fun x => if key x == k then f x else x)

/-- Body of `PUT /api/projects/:id`; `none` means the field is absent from
`req.body` (the controller copies only the present `allowedFields`). -/
structure ProjectUpdateBody where
  name : Option String := none
  description : Option String := none
  status : Option String := none
  priority : Option String := none
  startDate : Option Nat := none
  dueDate : Option Nat := none
  tags : Option (List String) := none
  color : Option String := none
  isPublic : Option Bool := none
  isArchived : Option Bool := none
deriving Repr, DecidableEq

/-- The field assignment performed by `Project.findByIdAndUpdate(updateData)`:
present fields overwrite, absent fields are kept.  No `pre('save')` hook
runs on this path. -/
def applyProjectUpdate (b : ProjectUpdateBody) (p : Project) : Project :=
  { p with
    name := b.name.getD p.name
    description := b.description.getD p.description
    status := b.status.getD p.status
    priority := b.priority.getD p.priority
    startDate := b.startDate.getD p.startDate
    dueDate := match b.dueDate with | some d => some d | none => p.dueDate
    tags := b.tags.getD p.tags
    color := b.color.getD p.color
    isPublic := b.isPublic.getD p.isPublic
    isArchived := b.isArchived.getD p.isArchived }

/-- `updateData` validation under `runValidators: true`: the enum fields that
are being written must hold legal values. -/
def projectUpdateValid (b : ProjectUpdateBody) : Bool :=
  (match b.status with | some s => projectStatuses.contains s | none => true) &&
  (match b.priority with | some s => priorities.contains s | none => true)

/-- `exports.updateProject` (project controller):
404 if the id does not resolve; 403 unless the requester is the owner, a
member whose per-project role is `admin`, or a global admin; otherwise the
allowed fields are written through `findByIdAndUpdate`. -/
def updateProject (db : DB) (req : Requester) (pid : String)
    (body : ProjectUpdateBody) : Except ApiError DB :=
  match findProject db pid with
  | none => .error ⟨404, "Project not found"⟩
  | some project =>
    let member := project.members.find? (fun m => m.user == req.id)
    let isOwner := project.owner == req.id
    let isAdmin := member.any (fun m => m.role == "admin")
    if !isOwner && !isAdmin && req.role != "admin" then
      .error ⟨403, "Not authorized to update this project"⟩
    else if !projectUpdateValid body then
      .error ⟨500, "Error updating project"⟩
    else
      .ok { db with
            projects := writeBack Project.id pid (applyProjectUpdate body) db.projects }

/-- `members.push({user, role})` followed by `save`: the appended entry gets
the schema default `joinedAt` of the current date. -/
def pushMember (userId : String) (role : String) (now : Nat) (p : Project) :
    Project :=
  { p with members := p.members ++ [{ user := userId, role := role, joinedAt := now }] }

/-- The member filter of `removeMember`: drop every entry with the target
user id. -/
def dropMember (userId : String) (p : Project) : Project :=
  { p with members := p.members.filter (fun m => m.user != userId) }

/-- `exports.addMember` (project controller):
404 if the project is missing; 403 unless the requester is the owner or a
global admin (note: a per-project admin member is NOT accepted here, unlike
`updateProject`); 400 if the target user already appears in `members`;
otherwise `{user, role}` is pushed and the document saved. -/
def addMember (db : DB) (req : Requester) (pid : String) (userId : String)
    (role : Option String) (now : Nat) : Except ApiError DB :=
  let role := role.getD "member"
  match findProject db pid with
  | none => .error ⟨404, "Project not found"⟩
  | some project =>
    if project.owner != req.id && req.role != "admin" then
      .error ⟨403, "Not authorized to add members"⟩
    else if (project.members.find? (fun m => m.user == userId)).isSome then
      .error ⟨400, "User is already a member of this project"⟩
    else if !(memberRoles.contains role) then
      .error ⟨500, "Error adding member"⟩
    else
      .ok { db with
            projects := writeBack Project.id pid
              (pushMember userId role now) db.projects }

/-- `exports.removeMember` (project controller):
404 if the project is missing; 403 unless the requester is the owner or a
global admin; 400 if the target is the owner; otherwise the member entries
with that user id are filtered out and the document saved. -/
def removeMember (db : DB) (req : Requester) (pid : String)
    (userId : String) : Except ApiError DB :=
  match findProject db pid with
  | none => .error ⟨404, "Project not found"⟩
  | some project =>
    if project.owner != req.id && req.role != "admin" then
      .error ⟨403, "Not authorized to remove members"⟩
    else if userId == project.owner then
      .error ⟨400, "Cannot remove the project owner"⟩
    else
      .ok { db with
            projects := writeBack Project.id pid
              (dropMember userId) db.projects }

/-- `exports.deleteProject` (project controller):
404 if the project is missing; 403 unless the requester is the owner or a
global admin; otherwise `Task.deleteMany({project})` removes every task whose
project reference equals the id, and the project itself is deleted. -/
def deleteProject (db : DB) (req : Requester) (pid : String) :
    Except ApiError DB :=
  match findProject db pid with
  | none => .error ⟨404, "Project not found"⟩
  | some project =>
    if project.owner != req.id && req.role != "admin" then
      .error ⟨403, "Not authorized to delete this project"⟩
    else
      .ok { db with
            tasks := db.tasks.filter (fun t => t.project != pid)
            projects := db.projects.filter (fun p => p.id != pid) }

/-- One entry of the caller-supplied `members` array of `POST /api/projects`. -/
structure MemberInput where
  user : String
  role : Option String := none
deriving Repr, DecidableEq

/-- Body of `POST /api/projects` (fields the controller reads). -/
structure CreateProjectBody where
  name : String
  description : String := ""
  status : Option String := none
  priority : Option String := none
  startDate : Option Nat := none
  dueDate : Option Nat := none
  tags : Option (List String) := none
  color : Option String := none
  members : Option (List MemberInput) := none
  isPublic : Option Bool := none
deriving Repr, DecidableEq

/-- `exports.createProject` (project controller): `Project.create` with the
requester as owner; the caller-supplied `members` list is stored as given
(each entry gets the default role `member` and `joinedAt = now`); schema
validation checks the `required` name and the enum fields. -/
def createProject (db : DB) (req : Requester) (body : CreateProjectBody)
    (newId : String) (now : Nat) : Except ApiError (DB × Project) :=
  let members := (body.members.getD []).map
    (fun mi => ({ user := mi.user, role := mi.role.getD "member", joinedAt := now } : Member))
  let status := body.status.getD "planning"
  let priority := body.priority.getD "medium"
  if body.name == "" || !(projectStatuses.contains status) ||
      !(priorities.contains priority) ||
      !(members.all (fun m => memberRoles.contains m.role)) then
    .error ⟨500, "Error creating project"⟩
  else
    let project : Project :=
      { id := newId
        name := body.name
        description := body.description
        status := status
        priority := priority
        owner := req.id
        members := members
        startDate := body.startDate.getD now
        dueDate := body.dueDate
        completedAt := if status == "completed" then some now else none
        tags := body.tags.getD []
        color := body.color.getD "#3B82F6"
        isPublic := body.isPublic.getD false
        isArchived := false
        createdAt := now
        updatedAt := now }
    .ok ({ db with projects := db.projects ++ [project] }, project)

/-- `TaskSchema.pre('save')`: when the `status` path was modified, entering
`completed` with no `completedAt` stamps the current date, and any
non-`completed` status clears the stamp.  `statusModified` mirrors Mongoose's
`isModified('status')` (true iff the assigned value differs, and always true
for a freshly created document). -/
def taskPreSave (statusModified : Bool) (now : Nat) (t : Task) : Task :=
  if statusModified then
    if t.status == "completed" && t.completedAt == none then
      { t with completedAt := some now }
    else if t.status != "completed" then
      { t with completedAt := none }
    else t
  else t

/-- One entry of the caller-supplied `subtasks` array of `POST /api/tasks`. -/
structure SubtaskInput where
  id : String
  title : String
deriving Repr, DecidableEq

/-- Body of `POST /api/tasks` (fields the controller reads). -/
structure CreateTaskBody where
  title : String
  description : String := ""
  project : String
  status : Option String := none
  priority : Option String := none
  assignee : Option String := none
  startDate : Option Nat := none
  dueDate : Option Nat := none
  estimatedHours : Option Nat := none
  tags : Option (List String) := none
  subtasks : Option (List SubtaskInput) := none
deriving Repr, DecidableEq

/-- `exports.createTask` (task controller):
404 if the project is missing; 403 unless the requester `isMember` of it;
otherwise the new task's `order` is one more than the highest `order` among
the tasks already in the `(project, status || 'todo')` column
(`Task.findOne(...).sort({order:-1})`), or 0 if that column is empty; the
creator becomes the sole watcher, and `Task.create` runs the schema
validation and the pre-save status hook. -/
def createTask (db : DB) (req : Requester) (body : CreateTaskBody)
    (newId : String) (now : Nat) : Except ApiError (DB × Task) :=
  match findProject db body.project with
  | none => .error ⟨404, "Project not found"⟩
  | some projectDoc =>
    if !(projectDoc.isMember req.id) then
      .error ⟨403, "Not authorized to create tasks in this project"⟩
    else
      let status := body.status.getD "todo"
      let priority := body.priority.getD "medium"
      let column := db.tasks.filter
        (fun t => t.project == body.project && t.status == status)
      let ord : Int :=
        match (column.map Task.order).max? with
        | some m => m + 1
        | none => 0
      if body.title == "" || !(taskStatuses.contains status) ||
          !(priorities.contains priority) then
        .error ⟨500, "Error creating task"⟩
      else
        let task : Task := taskPreSave true now
          { id := newId
            title := body.title
            description := body.description
            status := status
            priority := priority
            project := body.project
            creator := req.id
            assignee := body.assignee
            subtasks := (body.subtasks.getD []).map
              (fun s => { id := s.id, title := s.title, isCompleted := false,
                          completedAt := none })
            startDate := body.startDate
            dueDate := body.dueDate
            completedAt := none
            estimatedHours := body.estimatedHours.getD 0
            actualHours := 0
            tags := body.tags.getD []
            order := ord
            watchers := [req.id]
            isArchived := false
            createdAt := now }
        .ok ({ db with tasks := db.tasks ++ [task] }, task)

/-- Body of `PUT /api/tasks/:id`; `none` means the field is absent from
`req.body` (only the present `allowedFields` are copied into `updateData`). -/
structure TaskUpdateBody where
  title : Option String := none
  description : Option String := none
  status : Option String := none
  priority : Option String := none
  assignee : Option String := none
  startDate : Option Nat := none
  dueDate : Option Nat := none
  estimatedHours : Option Nat := none
  actualHours : Option Nat := none
  tags : Option (List String) := none
  order : Option Int := none
  isArchived : Option Bool := none
deriving Repr, DecidableEq

/-- The field assignment performed by `Task.findByIdAndUpdate(updateData)`.
This path runs NO `pre('save')` hook, so `completedAt` is never touched. -/
def applyTaskUpdate (b : TaskUpdateBody) (t : Task) : Task :=
  { t with
    title := b.title.getD t.title
    description := b.description.getD t.description
    status := b.status.getD t.status
    priority := b.priority.getD t.priority
    assignee := match b.assignee with | some a => some a | none => t.assignee
    startDate := match b.startDate with | some d => some d | none => t.startDate
    dueDate := match b.dueDate with | some d => some d | none => t.dueDate
    estimatedHours := b.estimatedHours.getD t.estimatedHours
    actualHours := b.actualHours.getD t.actualHours
    tags := b.tags.getD t.tags
    order := b.order.getD t.order
    isArchived := b.isArchived.getD t.isArchived }

/-- `updateData` validation under `runValidators: true`. -/
def taskUpdateValid (b : TaskUpdateBody) : Bool :=
  (match b.status with | some s => taskStatuses.contains s | none => true) &&
  (match b.priority with | some s => priorities.contains s | none => true)

/-- `exports.updateTask` (`PUT /api/tasks/:id`): 404 if the id does not
resolve, otherwise the allowed fields are written with
`Task.findByIdAndUpdate` — bypassing the `pre('save')` status hook — and the
updated task is returned.  No authorization check beyond authentication. -/
def updateTask (db : DB) (tid : String) (body : TaskUpdateBody) :
    Except ApiError (DB × Task) :=
  match findTask db tid with
  | none => .error ⟨404, "Task not found"⟩
  | some task =>
    if !taskUpdateValid body then
      .error ⟨500, "Error updating task"⟩
    else
      let task := applyTaskUpdate body task
      .ok ({ db with tasks := writeBack Task.id tid (applyTaskUpdate body) db.tasks },
           task)

/-- `exports.updateTaskStatus` (`PATCH /api/tasks/:id/status`): 404 if the id
does not resolve, otherwise `status` (and `order`, when given) are assigned
and the document saved, which validates the enum and runs the `pre('save')`
status hook.  No authorization check beyond authentication. -/
def updateTaskStatus (db : DB) (tid : String) (status : String)
    (order : Option Int) (now : Nat) : Except ApiError (DB × Task) :=
  match findTask db tid with
  | none => .error ⟨404, "Task not found"⟩
  | some task =>
    if !(taskStatuses.contains status) then
      .error ⟨500, "Error updating task status"⟩
    else
      let statusModified := task.status != status
      let upd := fun (t : Task) => taskPreSave statusModified now
        { t with status := status, order := order.getD t.order }
      .ok ({ db with tasks := writeBack Task.id tid upd db.tasks }, upd task)

/-- The flip applied to the targeted subtask: `isCompleted` inverted,
`completedAt` stamped when it turns complete and cleared otherwise. -/
def flipSubtask (now : Nat) (s : Subtask) : Subtask :=
  { s with isCompleted := !s.isCompleted
           completedAt := if !s.isCompleted then some now else none }

/-- The task-level update of `toggleSubtask`: rewrite the matching subtask
in place. -/
def toggleIn (subtaskId : String) (now : Nat) (t : Task) : Task :=
  { t with subtasks := writeBack Subtask.id subtaskId (flipSubtask now) t.subtasks }

/-- `exports.toggleSubtask` (`PATCH /api/tasks/:id/subtasks/:subtaskId`):
404 if the task or the subtask id does not resolve; otherwise `isCompleted`
is flipped and `completedAt` becomes the current date when the subtask turns
complete and is cleared when it turns incomplete; the task is saved (its
status hook is a no-op since `status` is untouched) and the subtask list
returned. -/
def toggleSubtask (db : DB) (tid : String) (subtaskId : String) (now : Nat) :
    Except ApiError (DB × List Subtask) :=
  match findTask db tid with
  | none => .error ⟨404, "Task not found"⟩
  | some task =>
    match task.subtasks.find? (fun s => s.id == subtaskId) with
    | none => .error ⟨404, "Subtask not found"⟩
    | some _ =>
      .ok ({ db with
             tasks := writeBack Task.id tid (toggleIn subtaskId now) db.tasks },
           (toggleIn subtaskId now task).subtasks)

/-- JavaScript's `toLowerCase()` on the character list of a string. -/
def lowerStr (s : String) : String :=
  ⟨s.data.map Char.toLower⟩

/-- Case-insensitive substring test: the semantics of the source's
`$regex: search, $options: 'i'` for a search string without regex
metacharacters (the controllers pass the user's query text through
verbatim). -/
def containsCI (hay needle : String) : Bool :=
  (lowerStr hay).data.tails.any (fun t => (lowerStr needle).data.isPrefixOf t)

/-- The `pagination` object assembled by the list endpoints.  `getProjects`
and `getTasks` emit all six keys; `getComments` omits `hasNext`/`hasPrev`,
modelled here as `none`. -/
structure Pagination where
  current : Nat
  pages : Nat
  total : Nat
  limit : Nat
  hasNext : Option Bool
  hasPrev : Option Bool
deriving Repr, DecidableEq

/-- `Math.ceil(total / limit)` on naturals (exact for `limit > 0`, the only
case a parsed positive `limit` query produces). -/
def jsPages (total limit : Nat) : Nat := (total + limit - 1) / limit

/-- Query string of `GET /api/tasks` after `parseInt` of `page`/`limit`;
absent parameters are `none` and the defaults mirror the destructuring
defaults of the controller. -/
structure TaskQuery where
  page : Nat := 1
  limit : Nat := 20
  project : Option String := none
  status : Option String := none
  priority : Option String := none
  assignee : Option String := none
  search : Option String := none
  sortBy : String := "createdAt"
  sortOrder : String := "desc"
  dueDate : Option Nat := none
  overdue : Option String := none
deriving Repr, DecidableEq

/-- Length of one day in milliseconds, for the `dueDate` day-range filter. -/
def dayMs : Nat := 86400000

/-- The Mongo query object built by `exports.getTasks`, as a predicate.
Note the source's sequential construction: `overdue === 'true'` overwrites
both the `status` and the `dueDate` conditions set earlier. -/
def taskMatches (q : TaskQuery) (uid : String) (now : Nat) (t : Task) : Bool :=
  let statusOk :=
    if q.overdue == some "true" then t.status != "completed"
    else match q.status with
      | none => true
      | some s => (s.splitOn ",").contains t.status
  let dueOk :=
    if q.overdue == some "true" then
      match t.dueDate with | some d => d < now | none => false
    else match q.dueDate with
      | none => true
      | some d0 =>
        let dayStart := d0 - d0 % dayMs
        match t.dueDate with
        | some d => dayStart ≤ d && d < dayStart + (dayMs - 1)
        | none => false
  let assigneeOk := match q.assignee with
    | none => true
    | some a =>
      if a == "me" then t.assignee == some uid
      else if a == "unassigned" then t.assignee == none
      else t.assignee == some a
  let searchOk := match q.search with
    | none => true
    | some s => containsCI t.title s || containsCI t.description s ||
        t.tags.any (fun tag => containsCI tag s)
  !t.isArchived &&
  (match q.project with | none => true | some pid => t.project == pid) &&
  statusOk &&
  (match q.priority with | none => true | some p => t.priority == p) &&
  assigneeOk && searchOk && dueOk

/-- Insert into a list sorted by the boolean comparator `le`. -/
def insertSorted {α : Type} (le : α → α → Bool) (a : α) : List α → List α
  | [] => [a]
  | b :: l => if le a b then a :: b :: l else b :: insertSorted le a l

/-- Insertion sort by a boolean comparator — the model of the store's
`.sort(...)`; the claims depend only on the membership of the result. -/
def sortList {α : Type} (le : α → α → Bool) : List α → List α
  | [] => []
  | a :: l => insertSorted le a (sortList le l)

/-- The dynamic `.sort({[sortBy]: sortOrder})` of the task listings, for the
sortable numeric fields the application uses; an unknown field name compares
everything equal, leaving the (stable) order unchanged. -/
def sortTasks (sortBy sortOrder : String) (l : List Task) : List Task :=
  let key : Task → Int := fun t =>
    if sortBy == "createdAt" then t.createdAt
    else if sortBy == "order" then t.order
    else if sortBy == "dueDate" then (t.dueDate.getD 0 : Nat)
    else 0
  sortList (fun a b =>
    if sortOrder == "asc" then key a ≤ key b else key b ≤ key a) l

/-- Result of `GET /api/tasks`. -/
structure TasksResult where
  tasks : List Task
  pagination : Pagination
deriving Repr, DecidableEq

/-- `exports.getTasks` (`GET /api/tasks`): non-archived tasks filtered by the
query, sorted, then cut to the requested page, with the six-field
pagination object. -/
def getTasks (db : DB) (req : Requester) (q : TaskQuery) (now : Nat) :
    TasksResult :=
  let filtered := db.tasks.filter (taskMatches q req.id now)
  let total := filtered.length
  let skip := (q.page - 1) * q.limit
  { tasks := ((sortTasks q.sortBy q.sortOrder filtered).drop skip).take q.limit
    pagination :=
      { current := q.page
        pages := jsPages total q.limit
        total := total
        limit := q.limit
        hasNext := some (decide (q.page * q.limit < total))
        hasPrev := some (decide (1 < q.page)) } }

/-- Query string of `GET /api/projects` after `parseInt` of `page`/`limit`. -/
structure ProjectQuery where
  page : Nat := 1
  limit : Nat := 10
  search : Option String := none
  status : Option String := none
  priority : Option String := none
  sortBy : String := "updatedAt"
  sortOrder : String := "desc"
  archived : String := "false"
deriving Repr, DecidableEq

/-- The Mongo query object built by `exports.getProjects`, as a predicate:
the requester must be owner or member, `isArchived` must equal the
`archived === 'true'` flag, and the optional search/status/priority filters
apply (the `$and` restructuring in the source is plain conjunction). -/
def projectMatches (q : ProjectQuery) (uid : String) (p : Project) : Bool :=
  (p.owner == uid || p.members.any (fun m => m.user == uid)) &&
  (p.isArchived == (q.archived == "true")) &&
  (match q.search with
    | none => true
    | some s => containsCI p.name s || containsCI p.description s ||
        p.tags.any (fun tag => containsCI tag s)) &&
  (match q.status with | none => true | some s => p.status == s) &&
  (match q.priority with | none => true | some s => p.priority == s)

/-- The dynamic sort of the project listing (numeric fields; unknown field
names compare equal). -/
def sortProjects (sortBy sortOrder : String) (l : List Project) : List Project :=
  let key : Project → Int := fun p =>
    if sortBy == "createdAt" then p.createdAt
    else if sortBy == "updatedAt" then p.updatedAt
    else 0
  sortList (fun a b =>
    if sortOrder == "asc" then key a ≤ key b else key b ≤ key a) l

/-- Result of `GET /api/projects`.  The per-project `taskStats`/`progress`
annotation of the source is a read-only presentation decoration and is not
modelled; `projects` carries the page of project documents. -/
structure ProjectsResult where
  projects : List Project
  pagination : Pagination
deriving Repr, DecidableEq

/-- `exports.getProjects` (`GET /api/projects`): the requester's own and
member projects, filtered, sorted and paged, with the six-field pagination
object. -/
def getProjects (db : DB) (req : Requester) (q : ProjectQuery) :
    ProjectsResult :=
  let filtered := db.projects.filter (projectMatches q req.id)
  let total := filtered.length
  let skip := (q.page - 1) * q.limit
  { projects := ((sortProjects q.sortBy q.sortOrder filtered).drop skip).take q.limit
    pagination :=
      { current := q.page
        pages := jsPages total q.limit
        total := total
        limit := q.limit
        hasNext := some (decide (q.page * q.limit < total))
        hasPrev := some (decide (1 < q.page)) } }

/-- A top-level comment with its populated `replies` virtual. -/
structure CommentWithReplies where
  comment : Comment
  replies : List Comment
deriving Repr, DecidableEq

/-- Result of `GET /api/comments/task/:taskId`. -/
structure CommentsResult where
  comments : List CommentWithReplies
  pagination : Pagination
deriving Repr, DecidableEq

/-- Ascending/descending sort by `createdAt` for comments. -/
def sortComments (asc : Bool) (l : List Comment) : List Comment :=
  sortList (fun a b =>
    if asc then a.createdAt ≤ b.createdAt else b.createdAt ≤ a.createdAt) l

/-- `exports.getComments` (`GET /api/comments/task/:taskId`): 404 if the task
is missing; otherwise the non-deleted top-level comments of the task
(`parentComment: null, isDeleted: false`), newest first, cut to the page,
each with its `replies` populated under `match: {isDeleted: false}` and
sorted oldest first.  The pagination object carries only
`current/pages/total/limit` — the source omits `hasNext`/`hasPrev` here. -/
def getComments (db : DB) (taskId : String) (page limit : Nat) :
    Except ApiError CommentsResult :=
  match findTask db taskId with
  | none => .error ⟨404, "Task not found"⟩
  | some _ =>
    let top := db.comments.filter
      (fun c => c.task == taskId && !c.isDeleted && c.parentComment == none)
    let total := top.length
    let pageItems := ((sortComments false top).drop ((page - 1) * limit)).take limit
    .ok
      { comments := pageItems.map (fun c =>
          { comment := c
            replies := sortComments true (db.comments.filter
              (fun r => r.parentComment == some c.id && !r.isDeleted)) })
        pagination :=
          { current := page
            pages := jsPages total limit
            total := total
            limit := limit
            hasNext := none
            hasPrev := none } }

/-- `CommentSchema.pre('save')`: a content modification on an existing
document marks the comment edited. -/
def commentPreSave (contentModified : Bool) (now : Nat) (c : Comment) : Comment :=
  if contentModified then { c with isEdited := true, editedAt := some now } else c

/-- The fixed tombstone text written by the soft delete. -/
def tombstone : String := "[This comment has been deleted]"

/-- The mutation of a soft delete followed by `save`: `isDeleted := true`,
content replaced by the tombstone, and the pre-save hook marking the edit
when the content actually changed. -/
def softDelete (now : Nat) (c : Comment) : Comment :=
  commentPreSave (c.content != tombstone) now
    { c with isDeleted := true, content := tombstone }

/-- `exports.deleteComment` (`DELETE /api/comments/:id`): 404 if the id does
not resolve; 403 unless the requester is the author or a global admin;
otherwise a soft delete — `isDeleted := true`, the content replaced by the
tombstone — and the document saved (whose pre-save hook marks the comment
edited, since its content changed). -/
def deleteComment (db : DB) (req : Requester) (cid : String) (now : Nat) :
    Except ApiError DB :=
  match findComment db cid with
  | none => .error ⟨404, "Comment not found"⟩
  | some comment =>
    if comment.author != req.id && req.role != "admin" then
      .error ⟨403, "Not authorized to delete this comment"⟩
    else
      .ok { db with
            comments := writeBack Comment.id cid (softDelete now) db.comments }

/-- Body of `POST /api/auth/register` (fields the controller reads). -/
structure RegisterBody where
  name : String
  email : String
  password : String
  department : Option String := none
  phone : Option String := none
  role : Option String := none
deriving Repr, DecidableEq

/-- `exports.register` (`POST /api/auth/register`): 400 if a user with the
lower-cased email already exists; the stored role is `'user'` whenever the
request asks for `'admin'`, and otherwise the requested role (default
`'user'`); `User.create` validates the role against the schema enum, and
`fieldsOk` stands for the remaining schema validation of
name/email/password, which this model does not inspect — any validation
failure is the controller's catch-all 500. -/
def register (db : DB) (body : RegisterBody) (newId : String)
    (fieldsOk : Bool) : Except ApiError (DB × User) :=
  let email := lowerStr body.email
  if (db.users.find? (fun u => u.email == email)).isSome then
    .error ⟨400, "An account with this email already exists"⟩
  else
    let role := if body.role == some "admin" then "user" else body.role.getD "user"
    if !(userRoles.contains role) || !fieldsOk then
      .error ⟨500, "Error creating user account"⟩
    else
      let user : User :=
        { id := newId
          name := body.name
          email := email
          password := body.password
          role := role
          department := body.department.getD "General"
          isActive := true }
      .ok ({ db with users := db.users ++ [user] }, user)

/-! ### Result helpers and concrete fixtures -/

/-- Did the call succeed (`success: true`)? -/
def exceptOk {α : Type} : Except ApiError α → Bool
  | .ok _ => true
  | .error _ => false

/-- The HTTP status of the error response, if the call failed. -/
def errStatus {α : Type} : Except ApiError α → Option Nat
  | .ok _ => none
  | .error e => some e.status

/-- Did the call fail with 403 `Forbidden`? -/
def isForbidden {α : Type} : Except ApiError α → Bool
  | .ok _ => false
  | .error e => e.status == 403

/-- The error response of a failed call, if any. -/
def errOf {α : Type} : Except ApiError α → Option ApiError
  | .ok _ => none
  | .error e => some e

/-- The database produced by a successful mutation. -/
def okDb : Except ApiError DB → Option DB
  | .ok d => some d
  | .error _ => none

/-- The first component of a successful pair result. -/
def okFst {α β : Type} : Except ApiError (α × β) → Option α
  | .ok x => some x.1
  | .error _ => none

/-- The second component of a successful pair result. -/
def okSnd {α β : Type} : Except ApiError (α × β) → Option β
  | .ok x => some x.2
  | .error _ => none

/-- The payload of a successful comment listing. -/
def okComments : Except ApiError CommentsResult → Option CommentsResult
  | .ok r => some r
  | .error _ => none

/-- A project fixture: owner `owner1`, one member `madmin` whose per-project
role is `admin`. -/
def pOne : Project :=
  { id := "p1", name := "Alpha", description := "", status := "planning",
    priority := "medium", owner := "owner1",
    members := [{ user := "madmin", role := "admin", joinedAt := 0 }],
    startDate := 0, dueDate := none, completedAt := none, tags := [],
    color := "#3B82F6", isPublic := false, isArchived := false,
    createdAt := 0, updatedAt := 0 }

/-- A task fixture in `completed` status with a completion stamp and one
completed subtask. -/
def tDone : Task :=
  { id := "t1", title := "T", description := "", status := "completed",
    priority := "medium", project := "p1", creator := "owner1",
    assignee := none,
    subtasks := [{ id := "s1", title := "S", isCompleted := true,
                   completedAt := some 3 }],
    startDate := none, dueDate := none, completedAt := some 5,
    estimatedHours := 0, actualHours := 0, tags := [], order := 0,
    watchers := ["owner1"], isArchived := false, createdAt := 0 }

/-- A store holding just `pOne` and `tDone`. -/
def dbOne : DB := { projects := [pOne], tasks := [tDone], comments := [], users := [] }

/-- An empty store. -/
def dbEmpty : DB := { projects := [], tasks := [], comments := [], users := [] }

/-- The member `madmin` of `pOne` as a requester with global role `user`. -/
def reqAdminMember : Requester := { id := "madmin", role := "user" }

/-- An unrelated requester with global role `user`. -/
def reqStranger : Requester := { id := "x", role := "user" }

/-- The owner of `pOne` as a requester. -/
def reqOwner : Requester := { id := "owner1", role := "user" }

/-- A `POST /api/projects` body whose members list names the same user
twice. -/
def dupMembersBody : CreateProjectBody :=
  { name := "P", members := some [{ user := "u" }, { user := "u" }] }

/-- A top-level comment on task `t1`. -/
def cTop : Comment :=
  { id := "c1", content := "hello", task := "t1", author := "a",
    mentions := [], isEdited := false, editedAt := none,
    parentComment := none, reactions := [], isDeleted := false,
    createdAt := 1 }

/-- A reply to `cTop`, authored by `a`. -/
def cReply : Comment :=
  { id := "c2", content := "reply", task := "t1", author := "a",
    mentions := [], isEdited := false, editedAt := none,
    parentComment := some "c1", reactions := [], isDeleted := false,
    createdAt := 2 }

/-- A store holding `tDone` and the two comments. -/
def dbComments : DB :=
  { projects := [pOne], tasks := [tDone], comments := [cTop, cReply], users := [] }

/-- A registration request that asks for the `admin` role. -/
def regBody : RegisterBody :=
  { name := "A", email := "a@b.co", password := "secret1", role := some "admin" }

/-- The account `register` creates for `regBody`: role demoted to `user`. -/
def uReg : User :=
  { id := "u1", name := "A", email := "a@b.co", password := "secret1",
    role := "user", department := "General", isActive := true }

/-- The store after the registration of `regBody`. -/
def dbReg : DB := { projects := [], tasks := [], comments := [], users := [uReg] }

/-- A `POST /api/tasks` body targeting `pOne`'s `completed` column. -/
def ctBody : CreateTaskBody :=
  { title := "N", project := "p1", status := some "completed" }

/-- The task `createTask` produces for `ctBody` on `dbOne` at time 7: the
`completed` column already holds `tDone` with order 0, so the new order is 1,
and the create-time status hook stamps `completedAt`. -/
def ctTask : Task :=
  { id := "t9", title := "N", description := "", status := "completed",
    priority := "medium", project := "p1", creator := "owner1",
    assignee := none, subtasks := [], startDate := none, dueDate := none,
    completedAt := some 7, estimatedHours := 0, actualHours := 0, tags := [],
    order := 1, watchers := ["owner1"], isArchived := false, createdAt := 7 }

/-- The store after creating `ctTask`. -/
def ctDb : DB := { dbOne with tasks := dbOne.tasks ++ [ctTask] }

/-- A `GET /api/tasks` query filtered to project `p1`. -/
def qP1 : TaskQuery := { project := some "p1" }

/-- The pagination object `getProjects` computes on `dbComments` for the
default query issued by `reqOwner`: one project, one page. -/
def pgProjectsW : Pagination :=
  { current := 1, pages := 1, total := 1, limit := 10,
    hasNext := some false, hasPrev := some false }

/-- The pagination object `getTasks` computes on `dbComments` for the default
query: one task, one page. -/
def pgTasksW : Pagination :=
  { current := 1, pages := 1, total := 1, limit := 20,
    hasNext := some false, hasPrev := some false }

/-- The listing `getComments` produces on `dbComments` for task `t1`, page 1,
limit 20: the top-level comment with its reply, and a four-field pagination
object. -/
def resCommentsW : CommentsResult :=
  { comments := [{ comment := cTop, replies := [cReply] }]
    pagination :=
      { current := 1, pages := 1, total := 1, limit := 20,
        hasNext := none, hasPrev := none } }

/-! ### Helper lemmas about the store primitives -/

/-- `find?` after a `writeBack` with the same key: the found document is the
updated image of the one found before, provided the update preserves the
key. -/
theorem find_writeBack {α : Type} (key : α → String) (k : String) (f : α → α)
    (hf : ∀ a, key (f a) = key a) :
    ∀ (l : List α) (a : α), l.find? (fun x => key x == k) = some a →
      (writeBack key k f l).find? (fun x => key x == k) = some (f a) := by
  intro l
  induction l with
  | nil => intro a h; simp [List.find?] at h
  | cons b l ih =>
    intro a h
    rw [List.find?_cons] at h
    show List.find? (fun x => key x == k)
      ((if key b == k then f b else b) :: writeBack key k f l) = some (f a)
    rw [List.find?_cons]
    cases hb : key b == k with
    | true =>
      rw [hb] at h
      injection h with hba
      subst hba
      simp [hf, hb]
    | false =>
      rw [hb] at h
      have hl : List.find? (fun x => key x == k) l = some a := h
      have hrec := ih a hl
      simp [hb, hrec]

/-- Every element of a `writeBack` result is either an untouched element of
the original list or the image of an element whose key matched. -/
theorem mem_writeBack {α : Type} (key : α → String) (k : String) (f : α → α)
    (l : List α) (r : α) (hr : r ∈ writeBack key k f l) :
    ∃ a, a ∈ l ∧ ((key a == k) = true ∧ r = f a ∨ (key a == k) = false ∧ r = a) := by
  simp only [writeBack, List.mem_map] at hr
  obtain ⟨a, ha, hra⟩ := hr
  refine ⟨a, ha, ?_⟩
  by_cases hk : key a == k
  · left; exact ⟨hk, by rw [← hra, if_pos hk]⟩
  · right
    exact ⟨by simpa using hk, by rw [← hra, if_neg hk]⟩

/-- A `writeBack` whose update leaves an observation `g` unchanged leaves the
`g`-image of the whole collection unchanged. -/
theorem map_writeBack {α β : Type} (key : α → String) (k : String) (f : α → α)
    (g : α → β) (hg : ∀ a, g (f a) = g a) (l : List α) :
    (writeBack key k f l).map g = l.map g := by
  simp only [writeBack, List.map_map]
  refine List.map_congr_left ?_
  intro a _
  by_cases hk : (key a == k) = true
  · simp only [Function.comp_apply, if_pos hk, hg]
  · simp only [Function.comp_apply, if_neg hk]

/-- The status pre-save hook never changes the task's id. -/
theorem taskPreSave_id (sm : Bool) (now : Nat) (t : Task) :
    (taskPreSave sm now t).id = t.id := by
  unfold taskPreSave
  split
  · split
    · rfl
    · split <;> rfl
  · rfl

/-- The status pre-save hook never changes the task's status. -/
theorem taskPreSave_status (sm : Bool) (now : Nat) (t : Task) :
    (taskPreSave sm now t).status = t.status := by
  unfold taskPreSave
  split
  · split
    · rfl
    · split <;> rfl
  · rfl

/-- The status pre-save hook never changes the task's order. -/
theorem taskPreSave_order (sm : Bool) (now : Nat) (t : Task) :
    (taskPreSave sm now t).order = t.order := by
  unfold taskPreSave
  split
  · split
    · rfl
    · split <;> rfl
  · rfl

/-- Membership is preserved by sorted insertion. -/
theorem mem_insertSorted {α : Type} (le : α → α → Bool) (a x : α) :
    ∀ l : List α, x ∈ insertSorted le a l ↔ x = a ∨ x ∈ l := by
  intro l
  induction l with
  | nil => simp [insertSorted]
  | cons b l ih =>
    unfold insertSorted
    by_cases hle : le a b = true
    · rw [if_pos hle]
      simp
    · rw [if_neg hle]
      simp only [List.mem_cons, ih]
      constructor
      · rintro (h | h | h)
        · exact Or.inr (Or.inl h)
        · exact Or.inl h
        · exact Or.inr (Or.inr h)
      · rintro (h | h | h)
        · exact Or.inr (Or.inl h)
        · exact Or.inl h
        · exact Or.inr (Or.inr h)

/-- The insertion sort is a permutation as far as membership is concerned. -/
theorem mem_sortList {α : Type} (le : α → α → Bool) (x : α) :
    ∀ l : List α, x ∈ sortList le l ↔ x ∈ l := by
  intro l
  induction l with
  | nil => simp [sortList]
  | cons b l ih =>
    unfold sortList
    rw [mem_insertSorted, ih, List.mem_cons]

/-- The comment pre-save hook touches only the edit markers. -/
theorem commentPreSave_fields (b : Bool) (now : Nat) (c : Comment) :
    (commentPreSave b now c).id = c.id ∧
    (commentPreSave b now c).content = c.content ∧
    (commentPreSave b now c).isDeleted = c.isDeleted ∧
    (commentPreSave b now c).parentComment = c.parentComment ∧
    (commentPreSave b now c).task = c.task := by
  unfold commentPreSave
  split <;> exact ⟨rfl, rfl, rfl, rfl, rfl⟩

/-- `find_writeBack` specialized to the projects collection. -/
theorem findProject_writeBack (db : DB) (pid : String) (f : Project → Project)
    (hf : ∀ a, (f a).id = a.id) (p : Project)
    (hp : findProject db pid = some p) :
    findProject { db with projects := writeBack Project.id pid f db.projects }
      pid = some (f p) :=
  find_writeBack Project.id pid f hf db.projects p hp

/-- `find_writeBack` specialized to the tasks collection. -/
theorem findTask_writeBack (db : DB) (tid : String) (f : Task → Task)
    (hf : ∀ a, (f a).id = a.id) (t : Task)
    (ht : findTask db tid = some t) :
    findTask { db with tasks := writeBack Task.id tid f db.tasks }
      tid = some (f t) :=
  find_writeBack Task.id tid f hf db.tasks t ht

/-- `find_writeBack` specialized to the comments collection. -/
theorem findComment_writeBack (db : DB) (cid : String) (f : Comment → Comment)
    (hf : ∀ a, (f a).id = a.id) (c : Comment)
    (hc : findComment db cid = some c) :
    findComment { db with comments := writeBack Comment.id cid f db.comments }
      cid = some (f c) :=
  find_writeBack Comment.id cid f hf db.comments c hc

/-- `Math.ceil(total/limit)` is the least page count covering `total`. -/
theorem jsPages_le_iff (total limit k : Nat) (hl : 0 < limit) :
    jsPages total limit ≤ k ↔ total ≤ k * limit := by
  unfold jsPages
  rw [Nat.div_le_iff_le_mul_add_pred hl, Nat.mul_comm limit k]
  omega

/-! ### C1 — membership-mutation authorization -/

/-- C1 (counterexample): the member `madmin` of `pOne` has per-project role
`admin` and global role `user`; `updateProject` authorizes them, but
`addMember` and `removeMember` reject them with 403 `Forbidden` — so
add/remove member is NOT authorized under the same rule as update, refuting
the claimed if-and-only-if. -/
theorem memberAdminCannotAddMembers :
    exceptOk (updateProject dbOne reqAdminMember "p1" {}) = true ∧
    errOf (addMember dbOne reqAdminMember "p1" "u9" none 0)
      = some ⟨403, "Not authorized to add members"⟩ ∧
    errOf (removeMember dbOne reqAdminMember "p1" "u9")
      = some ⟨403, "Not authorized to remove members"⟩ := by decide

/-- C1 (amended): for a resolving project id, `addMember` and `removeMember`
proceed past authorization iff the requester is the project's owner or has
GLOBAL role `admin`; a member with per-project role `admin` is not accepted.
`updateProject` alone uses the three-way rule (owner, per-project admin
member, or global admin). -/
theorem addRemoveMemberAuthAmended (db : DB) (req : Requester)
    (pid userId : String) (role : Option String) (now : Nat)
    (body : ProjectUpdateBody) (p : Project)
    (hp : findProject db pid = some p) :
    isForbidden (addMember db req pid userId role now)
      = !(p.owner == req.id || req.role == "admin") ∧
    isForbidden (removeMember db req pid userId)
      = !(p.owner == req.id || req.role == "admin") ∧
    isForbidden (updateProject db req pid body)
      = !(p.owner == req.id
          || (p.members.find? (fun m => m.user == req.id)).any
               (fun m => m.role == "admin")
          || req.role == "admin") := by
  have hca : (!(p.owner == req.id || req.role == "admin"))
      = (p.owner != req.id && req.role != "admin") := by
    simp only [bne]
    cases p.owner == req.id <;> cases req.role == "admin" <;> rfl
  refine ⟨?_, ?_, ?_⟩
  · simp only [addMember, hp, hca]
    by_cases hc : (p.owner != req.id && req.role != "admin") = true
    · rw [if_pos hc, hc]; rfl
    · rw [if_neg hc]
      rw [Bool.not_eq_true] at hc
      rw [hc]
      split
      · rfl
      · split <;> rfl
  · simp only [removeMember, hp, hca]
    by_cases hc : (p.owner != req.id && req.role != "admin") = true
    · rw [if_pos hc, hc]; rfl
    · rw [if_neg hc]
      rw [Bool.not_eq_true] at hc
      rw [hc]
      split <;> rfl
  · have hcu : (!(p.owner == req.id
          || (p.members.find? (fun m => m.user == req.id)).any
               (fun m => m.role == "admin")
          || req.role == "admin"))
        = (!(p.owner == req.id)
            && !((p.members.find? (fun m => m.user == req.id)).any
                  (fun m => m.role == "admin"))
            && req.role != "admin") := by
      simp only [bne]
      cases p.owner == req.id <;>
        cases (p.members.find? (fun m => m.user == req.id)).any
          (fun m => m.role == "admin") <;>
        cases req.role == "admin" <;> rfl
    simp only [updateProject, hp, hcu]
    by_cases hc : (!(p.owner == req.id)
        && !((p.members.find? (fun m => m.user == req.id)).any
              (fun m => m.role == "admin"))
        && req.role != "admin") = true
    · rw [if_pos hc, hc]; rfl
    · rw [if_neg hc]
      rw [Bool.not_eq_true] at hc
      rw [hc]
      split <;> rfl

/-- C1 (witness): the amended authorization characterization instantiated
for the owner of `pOne`. -/
theorem addRemoveMemberAuthWitness :
    isForbidden (addMember dbOne reqOwner "p1" "u9" none 0)
      = !(pOne.owner == reqOwner.id || reqOwner.role == "admin") ∧
    isForbidden (removeMember dbOne reqOwner "p1" "u9")
      = !(pOne.owner == reqOwner.id || reqOwner.role == "admin") ∧
    isForbidden (updateProject dbOne reqOwner "p1" {})
      = !(pOne.owner == reqOwner.id
          || (pOne.members.find? (fun m => m.user == reqOwner.id)).any
               (fun m => m.role == "admin")
          || reqOwner.role == "admin") :=
  addRemoveMemberAuthAmended dbOne reqOwner "p1" "u9" none 0 {} pOne (by decide)

/-! ### C2 — the completed-timestamp rule -/

/-- C2 (counterexample): `tDone` is `completed` with `completedAt = some 5`;
changing its status to `todo` through `updateTask` (PUT) leaves
`completedAt = some 5` instead of clearing it, because `findByIdAndUpdate`
bypasses the `pre('save')` hook — refuting the claim for `updateTask`. -/
theorem updateTaskBypassKeepsCompletedAt :
    (okSnd (updateTask dbOne "t1" { status := some "todo" })).map
      (fun t => (t.status, t.completedAt)) = some ("todo", some 5) := by decide

/-- C2 (amended): the reversible completed-timestamp rule holds for every
status change that goes through a document save — `updateTaskStatus` (PATCH
/tasks/:id/status): changing away from `completed` clears `completedAt`,
changing to `completed` yields a non-null stamp (a fresh one when none was
set), and leaving then re-entering `completed` stamps the second change's
date.  `updateTask` (PUT /tasks/:id), however, writes through
`findByIdAndUpdate`, which bypasses the pre-save hook and never touches
`completedAt`. -/
theorem completedAtRuleAmended (db : DB) (tid : String) (t : Task)
    (ht : findTask db tid = some t) :
    (∀ S ord now, taskStatuses.contains S = true → S ≠ "completed" →
      t.status ≠ S →
      (okSnd (updateTaskStatus db tid S ord now)).map Task.completedAt
        = some none) ∧
    (∀ ord now, t.status ≠ "completed" →
      (okSnd (updateTaskStatus db tid "completed" ord now)).map Task.completedAt
        = some (some (t.completedAt.getD now))) ∧
    (∀ S1 ord1 now1 db1 t1 ord2 now2, taskStatuses.contains S1 = true →
      S1 ≠ "completed" → t.status ≠ S1 →
      updateTaskStatus db tid S1 ord1 now1 = .ok (db1, t1) →
      (okSnd (updateTaskStatus db1 tid "completed" ord2 now2)).map Task.completedAt
        = some (some now2)) ∧
    (∀ body : TaskUpdateBody,
      (okSnd (updateTask db tid body)).map Task.completedAt
        = if taskUpdateValid body then some t.completedAt else none) := by
  have hcc : taskStatuses.contains "completed" = true := by decide
  have hccm : "completed" ∈ taskStatuses := by decide
  refine ⟨?_, ?_, ?_, ?_⟩
  · intro S ord now hS hSne hmod
    have hSmem : S ∈ taskStatuses := by simpa using hS
    have hsm : (t.status != S) = true := bne_iff_ne.mpr hmod
    have hSc : (S == "completed") = false := beq_eq_false_iff_ne.mpr hSne
    have hSc' : (S != "completed") = true := bne_iff_ne.mpr hSne
    simp [updateTaskStatus, ht, hS, hSmem, okSnd, taskPreSave, hsm, hSc, hSc']
  · intro ord now hne
    have hsm : (t.status != "completed") = true := bne_iff_ne.mpr hne
    cases hc : t.completedAt with
    | none =>
      simp [updateTaskStatus, ht, hcc, hccm, okSnd, taskPreSave, hsm, hc]
    | some x =>
      simp [updateTaskStatus, ht, hcc, hccm, okSnd, taskPreSave, hsm, hc]
  · intro S1 ord1 now1 db1 t1 ord2 now2 hS1 hS1ne hmod1 hok
    have hS1mem : S1 ∈ taskStatuses := by simpa using hS1
    have hsm1 : (t.status != S1) = true := bne_iff_ne.mpr hmod1
    have hS1c : (S1 == "completed") = false := beq_eq_false_iff_ne.mpr hS1ne
    have hS1c' : (S1 != "completed") = true := bne_iff_ne.mpr hS1ne
    simp [updateTaskStatus, ht, hS1, hS1mem] at hok
    obtain ⟨h1, h2⟩ := hok
    subst h1
    set upd1 := fun (x : Task) => taskPreSave (t.status != S1) now1
      { x with status := S1, order := ord1.getD x.order } with hupd1
    have ht1 : findTask
        { db with tasks := writeBack Task.id tid upd1 db.tasks } tid
        = some (upd1 t) := by
      show (writeBack Task.id tid upd1 db.tasks).find?
        (fun x => x.id == tid) = some (upd1 t)
      exact find_writeBack Task.id tid upd1
        (fun a => taskPreSave_id _ _ _) db.tasks t ht
    have hst : (upd1 t).status = S1 := by
      rw [hupd1]
      simp only [taskPreSave_status]
    have hca : (upd1 t).completedAt = none := by
      rw [hupd1]
      simp [taskPreSave, hsm1, hS1c, hS1c']
    have hsm2 : ((upd1 t).status != "completed") = true := by
      rw [hst]; exact hS1c'
    simp [updateTaskStatus, ht1, hcc, hccm, okSnd, taskPreSave, hsm2, hca]
  · intro body
    cases hv : taskUpdateValid body with
    | true => simp [updateTask, ht, hv, okSnd, applyTaskUpdate]
    | false => simp [updateTask, ht, hv, okSnd]

/-- C2 (witness): the amended completed-timestamp rule instantiated at the
store `dbOne` and its task `t1`. -/
theorem completedAtRuleWitness :
    (∀ S ord now, taskStatuses.contains S = true → S ≠ "completed" →
      tDone.status ≠ S →
      (okSnd (updateTaskStatus dbOne "t1" S ord now)).map Task.completedAt
        = some none) ∧
    (∀ ord now, tDone.status ≠ "completed" →
      (okSnd (updateTaskStatus dbOne "t1" "completed" ord now)).map Task.completedAt
        = some (some (tDone.completedAt.getD now))) ∧
    (∀ S1 ord1 now1 db1 t1 ord2 now2, taskStatuses.contains S1 = true →
      S1 ≠ "completed" → tDone.status ≠ S1 →
      updateTaskStatus dbOne "t1" S1 ord1 now1 = .ok (db1, t1) →
      (okSnd (updateTaskStatus db1 "t1" "completed" ord2 now2)).map Task.completedAt
        = some (some now2)) ∧
    (∀ body : TaskUpdateBody,
      (okSnd (updateTask dbOne "t1" body)).map Task.completedAt
        = if taskUpdateValid body then some tDone.completedAt else none) :=
  completedAtRuleAmended dbOne "t1" tDone (by decide)

/-! ### C3 — kanban order of a created task -/

/-- C3: whenever `createTask` succeeds, the created task carries the
requested status (default `todo`) and its `order` is strictly above every
task already in that `(project, status)` column: one more than some existing
order that is maximal in the column, or 0 when the column is empty. -/
theorem createTaskOrderSpec (db : DB) (req : Requester) (body : CreateTaskBody)
    (newId : String) (now : Nat) (db2 : DB) (task : Task)
    (h : createTask db req body newId now = .ok (db2, task)) :
    task.status = body.status.getD "todo" ∧
    (∀ x ∈ db.tasks.filter (fun x => x.project == body.project &&
        x.status == body.status.getD "todo"), x.order < task.order) ∧
    (db.tasks.filter (fun x => x.project == body.project &&
        x.status == body.status.getD "todo") = [] → task.order = 0) ∧
    (db.tasks.filter (fun x => x.project == body.project &&
        x.status == body.status.getD "todo") ≠ [] →
      ∃ x ∈ db.tasks.filter (fun x => x.project == body.project &&
          x.status == body.status.getD "todo"), task.order = x.order + 1) := by
  unfold createTask at h
  cases hp : findProject db body.project with
  | none => rw [hp] at h; exact absurd h (by simp)
  | some pd =>
    rw [hp] at h
    simp only [] at h
    split at h
    · exact absurd h (by simp)
    · split at h
      · exact absurd h (by simp)
      · rw [Except.ok.injEq, Prod.mk.injEq] at h
        obtain ⟨-, h2⟩ := h
        subst h2
        refine ⟨by rw [taskPreSave_status], ?_⟩
        rw [taskPreSave_order]
        cases hmax : ((db.tasks.filter (fun x => x.project == body.project &&
            x.status == body.status.getD "todo")).map Task.order).max? with
        | none =>
          rw [List.max?_eq_none_iff, List.map_eq_nil_iff] at hmax
          rw [hmax]
          exact ⟨by simp, fun _ => rfl, fun hne => absurd rfl hne⟩
        | some m =>
          have : Std.Antisymm (fun (x1 x2 : Int) => x1 ≤ x2) :=
            ⟨fun h1 h2 => le_antisymm h1 h2⟩
          rw [List.max?_eq_some_iff (fun a => le_refl a)
            (fun a b => max_choice a b) (fun a b c => max_le_iff)] at hmax
          obtain ⟨hmem, hle⟩ := hmax
          rw [List.mem_map] at hmem
          obtain ⟨x0, hx0, hx0m⟩ := hmem
          refine ⟨?_, ?_, ?_⟩
          · intro x hx
            have hxle := hle x.order (List.mem_map_of_mem Task.order hx)
            show x.order < m + 1
            omega
          · intro hnil
            rw [hnil] at hx0
            exact absurd hx0 (List.not_mem_nil x0)
          · intro _
            refine ⟨x0, hx0, ?_⟩
            show m + 1 = x0.order + 1
            omega

/-- C3 (witness): creating a `completed`-column task in `dbOne` (whose
`completed` column holds `tDone` with order 0) yields order 1. -/
theorem createTaskOrderWitness :
    ctTask.status = ctBody.status.getD "todo" ∧
    (∀ x ∈ dbOne.tasks.filter (fun x => x.project == ctBody.project &&
        x.status == ctBody.status.getD "todo"), x.order < ctTask.order) ∧
    (dbOne.tasks.filter (fun x => x.project == ctBody.project &&
        x.status == ctBody.status.getD "todo") = [] → ctTask.order = 0) ∧
    (dbOne.tasks.filter (fun x => x.project == ctBody.project &&
        x.status == ctBody.status.getD "todo") ≠ [] →
      ∃ x ∈ dbOne.tasks.filter (fun x => x.project == ctBody.project &&
          x.status == ctBody.status.getD "todo"), ctTask.order = x.order + 1) :=
  createTaskOrderSpec dbOne reqOwner ctBody "t9" 7 ctDb ctTask (by rfl)

/-! ### C4 — project deletion cascades to tasks -/

/-- C4: whenever `deleteProject` succeeds, no task referencing the project
remains in the store, and any subsequent `getTasks` query filtered by that
project id returns an empty task list with total 0. -/
theorem deleteProjectCascades (db : DB) (req : Requester) (pid : String)
    (db2 : DB) (h : deleteProject db req pid = .ok db2)
    (req2 : Requester) (q : TaskQuery) (now : Nat)
    (hq : q.project = some pid) :
    db2.tasks.filter (fun t => t.project == pid) = [] ∧
    (getTasks db2 req2 q now).tasks = [] ∧
    (getTasks db2 req2 q now).pagination.total = 0 := by
  unfold deleteProject at h
  cases hp : findProject db pid with
  | none => rw [hp] at h; exact absurd h (by simp)
  | some p =>
    rw [hp] at h
    simp only [] at h
    split at h
    · exact absurd h (by simp)
    · rw [Except.ok.injEq] at h
      subst h
      have hgone : ∀ t ∈ db.tasks.filter (fun t => t.project != pid),
          (t.project == pid) = false := by
        intro t htm
        have := (List.mem_filter.mp htm).2
        cases hpr : t.project == pid with
        | true => rw [bne, hpr] at this; exact absurd this (by simp)
        | false => rfl
      have h1 : (db.tasks.filter (fun t => t.project != pid)).filter
          (fun t => t.project == pid) = [] := by
        rw [List.filter_eq_nil_iff]
        intro t htm
        rw [hgone t htm]
        exact fun hc => by cases hc
      have h2 : (db.tasks.filter (fun t => t.project != pid)).filter
          (taskMatches q req2.id now) = [] := by
        rw [List.filter_eq_nil_iff]
        intro t htm
        have hpr := hgone t htm
        simp [taskMatches, hq, hpr]
      refine ⟨h1, ?_, ?_⟩
      · show ((sortTasks q.sortBy q.sortOrder _).drop _).take _ = []
        rw [h2]
        simp [sortTasks, sortList]
      · show ((db.tasks.filter (fun t => t.project != pid)).filter
            (taskMatches q req2.id now)).length = 0
        rw [h2]
        rfl

/-- C4 (witness): deleting `pOne` from `dbOne` as its owner leaves the empty
store, and the project-filtered task listing is empty. -/
theorem deleteProjectCascadesWitness :
    dbEmpty.tasks.filter (fun t => t.project == "p1") = [] ∧
    (getTasks dbEmpty reqStranger qP1 0).tasks = [] ∧
    (getTasks dbEmpty reqStranger qP1 0).pagination.total = 0 :=
  deleteProjectCascades dbOne reqOwner "p1" dbEmpty (by rfl) reqStranger qP1 0
    (by rfl)

/-! ### C5 — member uniqueness -/

/-- C5 (counterexample): `createProject` stores a caller-supplied members
list verbatim, so a request naming the same user twice creates a project
whose `members` holds two entries for user `u` — the claimed global
no-duplicates invariant fails for states produced by `createProject`. -/
theorem createProjectDuplicateMembers :
    (okSnd (createProject dbEmpty reqOwner dupMembersBody "p9" 0)).map
      (fun p => p.members.map Member.user) = some ["u", "u"] := by decide

/-- C5 (amended): `addMember` itself is duplicate-safe — an authorized add of
a user already present fails with the 400 conflict response (leaving the
store untouched, since errors mutate nothing), and both `addMember` and
`removeMember` preserve distinctness of `members[].user`; but `createProject`
accepts a caller-supplied members list as-is, so the invariant is not global. -/
theorem memberUniquenessAmended (db : DB) (req : Requester)
    (pid userId : String) (role : Option String) (now : Nat) (p : Project)
    (hp : findProject db pid = some p) :
    ((p.owner = req.id ∨ req.role = "admin") →
      (p.members.find? (fun m => m.user == userId)).isSome = true →
      addMember db req pid userId role now
        = .error ⟨400, "User is already a member of this project"⟩) ∧
    (∀ db2, (p.members.map Member.user).Nodup →
      addMember db req pid userId role now = .ok db2 →
      ∀ p2, findProject db2 pid = some p2 → (p2.members.map Member.user).Nodup) ∧
    (∀ db2, (p.members.map Member.user).Nodup →
      removeMember db req pid userId = .ok db2 →
      ∀ p2, findProject db2 pid = some p2 → (p2.members.map Member.user).Nodup) := by
  refine ⟨?_, ?_, ?_⟩
  · intro hauth hdup
    have hcond : (p.owner != req.id && req.role != "admin") = false := by
      rcases hauth with ha | ha
      · cases hb : p.owner != req.id with
        | false => rfl
        | true => rw [bne_iff_ne] at hb; exact absurd ha hb
      · cases hb : req.role != "admin" with
        | false => cases p.owner != req.id <;> rfl
        | true => rw [bne_iff_ne] at hb; exact absurd ha hb
    unfold addMember
    rw [hp]
    simp only [hcond, Bool.false_eq_true, if_false, hdup, if_true]
  · intro db2 hnd hok p2 hp2
    unfold addMember at hok
    rw [hp] at hok
    simp only [] at hok
    split at hok
    · exact absurd hok (by simp)
    · split at hok
      · exact absurd hok (by simp)
      · split at hok
        · exact absurd hok (by simp)
        · rename_i hauth hdup hrole
          rw [Except.ok.injEq] at hok
          subst hok
          rw [findProject_writeBack db pid
            (pushMember userId (role.getD "member") now) (fun a => rfl) p hp,
            Option.some.injEq] at hp2
          subst hp2
          show ((p.members ++
            [({ user := userId, role := role.getD "member",
                joinedAt := now } : Member)]).map Member.user).Nodup
          rw [List.map_append, List.nodup_append]
          refine ⟨hnd, List.nodup_singleton _, ?_⟩
          intro a ha hb
          simp only [List.map_cons, List.map_nil, List.mem_cons,
            List.not_mem_nil, or_false] at hb
          rw [hb] at ha
          rw [List.mem_map] at ha
          obtain ⟨m, hm, hmu⟩ := ha
          have hnone : p.members.find? (fun m => m.user == userId) = none := by
            cases hf : p.members.find? (fun m => m.user == userId) with
            | none => rfl
            | some z => rw [hf] at hdup; exact absurd rfl hdup
          rw [List.find?_eq_none] at hnone
          exact absurd (by simp [hmu] : (m.user == userId) = true)
            (by simpa using hnone m hm)
  · intro db2 hnd hok p2 hp2
    unfold removeMember at hok
    rw [hp] at hok
    simp only [] at hok
    split at hok
    · exact absurd hok (by simp)
    · split at hok
      · exact absurd hok (by simp)
      · rw [Except.ok.injEq] at hok
        subst hok
        rw [findProject_writeBack db pid (dropMember userId) (fun a => rfl) p hp,
          Option.some.injEq] at hp2
        subst hp2
        show ((p.members.filter (fun m => m.user != userId)).map
          Member.user).Nodup
        exact hnd.sublist ((List.filter_sublist p.members).map Member.user)

/-- C5 (witness): the owner of `pOne` re-adding the existing member `madmin`
receives the 400 conflict response, and the distinctness preservation holds
at that instance. -/
theorem memberUniquenessWitness :
    ((pOne.owner = reqOwner.id ∨ reqOwner.role = "admin") →
      (pOne.members.find? (fun m => m.user == "madmin")).isSome = true →
      addMember dbOne reqOwner "p1" "madmin" none 0
        = .error ⟨400, "User is already a member of this project"⟩) ∧
    (∀ db2, (pOne.members.map Member.user).Nodup →
      addMember dbOne reqOwner "p1" "madmin" none 0 = .ok db2 →
      ∀ p2, findProject db2 "p1" = some p2 →
        (p2.members.map Member.user).Nodup) ∧
    (∀ db2, (pOne.members.map Member.user).Nodup →
      removeMember dbOne reqOwner "p1" "madmin" = .ok db2 →
      ∀ p2, findProject db2 "p1" = some p2 →
        (p2.members.map Member.user).Nodup) :=
  memberUniquenessAmended dbOne reqOwner "p1" "madmin" none 0 pOne (by rfl)

/-! ### C6 — removing the owner -/

/-- C6 (counterexample): an unauthorized requester asking to remove the
owner of `pOne` receives 403 `Forbidden`, not the InvalidOperation response
`400 Cannot remove the project owner` — the permission check runs first, so
the claim's "always fails with InvalidOperation" is false as stated. -/
theorem removeOwnerForbiddenFirst :
    errOf (removeMember dbOne reqStranger "p1" "owner1")
      = some ⟨403, "Not authorized to remove members"⟩ ∧
    errOf (removeMember dbOne reqStranger "p1" "owner1")
      ≠ some ⟨400, "Cannot remove the project owner"⟩ := by decide

/-- C6 (amended): a `removeMember` call targeting the owner never succeeds —
it fails with `400 Cannot remove the project owner` when the requester is
authorized (owner or global admin) and with 403 `Forbidden` otherwise; and no
`removeMember` call ever changes any project's owner (failing calls change
nothing at all, since errors return the store untouched). -/
theorem removeMemberOwnerAmended (db : DB) (req : Requester)
    (pid userId : String) (p : Project) (hp : findProject db pid = some p) :
    (userId = p.owner → ∀ db2, removeMember db req pid userId ≠ .ok db2) ∧
    ((p.owner = req.id ∨ req.role = "admin") → userId = p.owner →
      removeMember db req pid userId
        = .error ⟨400, "Cannot remove the project owner"⟩) ∧
    (∀ db2, removeMember db req pid userId = .ok db2 →
      db2.projects.map (fun x => (x.id, x.owner))
        = db.projects.map (fun x => (x.id, x.owner))) := by
  refine ⟨?_, ?_, ?_⟩
  · intro howner db2 hok
    unfold removeMember at hok
    rw [hp] at hok
    simp only [] at hok
    split at hok
    · exact absurd hok (by simp)
    · split at hok
      · exact absurd hok (by simp)
      · rename_i hown
        exact hown (by simp [howner])
  · intro hauth howner
    have hcond : (p.owner != req.id && req.role != "admin") = false := by
      rcases hauth with ha | ha
      · cases hb : p.owner != req.id with
        | false => rfl
        | true => rw [bne_iff_ne] at hb; exact absurd ha hb
      · cases hb : req.role != "admin" with
        | false => cases p.owner != req.id <;> rfl
        | true => rw [bne_iff_ne] at hb; exact absurd ha hb
    unfold removeMember
    rw [hp]
    simp only [hcond, Bool.false_eq_true, if_false]
    rw [if_pos (by simp [howner])]
  · intro db2 hok
    unfold removeMember at hok
    rw [hp] at hok
    simp only [] at hok
    split at hok
    · exact absurd hok (by simp)
    · split at hok
      · exact absurd hok (by simp)
      · rw [Except.ok.injEq] at hok
        subst hok
        show (writeBack Project.id pid (dropMember userId) db.projects).map
          (fun x => (x.id, x.owner)) = _
        exact map_writeBack Project.id pid (dropMember userId)
          (fun x => (x.id, x.owner)) (fun a => rfl) db.projects

/-- C6 (witness): the amended owner-removal behavior instantiated for the
owner of `pOne` removing themselves. -/
theorem removeMemberOwnerWitness :
    ("owner1" = pOne.owner → ∀ db2,
      removeMember dbOne reqOwner "p1" "owner1" ≠ .ok db2) ∧
    ((pOne.owner = reqOwner.id ∨ reqOwner.role = "admin") →
      "owner1" = pOne.owner →
      removeMember dbOne reqOwner "p1" "owner1"
        = .error ⟨400, "Cannot remove the project owner"⟩) ∧
    (∀ db2, removeMember dbOne reqOwner "p1" "owner1" = .ok db2 →
      db2.projects.map (fun x => (x.id, x.owner))
        = dbOne.projects.map (fun x => (x.id, x.owner))) :=
  removeMemberOwnerAmended dbOne reqOwner "p1" "owner1" pOne (by rfl)

/-! ### C7 — soft-deleted replies and the listing query -/

/-- C7 (counterexample): after its author soft-deletes the reply `c2`, the
comment row survives with the tombstone content and `isDeleted = true`, but
the listing for task `t1` returns the parent `c1` with an EMPTY reply list —
the deleted reply does not appear, because the `replies` populate filters
`isDeleted: false`.  This refutes the claim that the deleted reply still
appears in its parent's reply list. -/
theorem deletedReplyNotListed :
    (okDb (deleteComment dbComments ⟨"a", "user"⟩ "c2" 10)).map (fun d =>
      ((findComment d "c2").map (fun c => (c.content, c.isDeleted)),
       (okComments (getComments d "t1" 1 20)).map (fun r =>
         r.comments.map (fun cw => (cw.comment.id, cw.replies.map Comment.id)))))
    = some (some (tombstone, true), some [("c1", [])]) := by decide

/-- C7 (amended): soft-deleting a comment (by its author or a global admin)
keeps the row in the store with the fixed tombstone content and
`isDeleted = true`, but the comment-listing query EXCLUDES it from every
reply list it returns, since replies are populated with the filter
`isDeleted: false`. -/
theorem softDeleteAmended (db : DB) (req : Requester) (cid : String)
    (now : Nat) (c : Comment) (hc : findComment db cid = some c)
    (hauth : c.author = req.id ∨ req.role = "admin") :
    ∃ db2, deleteComment db req cid now = .ok db2 ∧
      (∀ c2, findComment db2 cid = some c2 →
        c2.content = tombstone ∧ c2.isDeleted = true) ∧
      (∀ page limit res, getComments db2 c.task page limit = .ok res →
        ∀ cw ∈ res.comments, cid ∉ cw.replies.map Comment.id) := by
  have hfid : ∀ a : Comment, (softDelete now a).id = a.id :=
    fun a => (commentPreSave_fields _ _ _).1
  have hcond : (c.author != req.id && req.role != "admin") = false := by
    rcases hauth with ha | ha
    · cases hb : c.author != req.id with
      | false => rfl
      | true => rw [bne_iff_ne] at hb; exact absurd ha hb
    · cases hb : req.role != "admin" with
      | false => cases c.author != req.id <;> rfl
      | true => rw [bne_iff_ne] at hb; exact absurd ha hb
  unfold deleteComment
  rw [hc]
  simp only [hcond, Bool.false_eq_true, if_false]
  refine ⟨_, rfl, ?_, ?_⟩
  · intro c2 hc2
    rw [findComment_writeBack db cid (softDelete now) hfid c hc,
      Option.some.injEq] at hc2
    subst hc2
    exact ⟨(commentPreSave_fields _ _ _).2.1, (commentPreSave_fields _ _ _).2.2.1⟩
  · intro page limit res hres cw hcw hmem
    unfold getComments at hres
    cases hft : findTask
        { db with comments := writeBack Comment.id cid (softDelete now) db.comments }
        c.task with
    | none => rw [hft] at hres; exact absurd hres (by simp)
    | some t0 =>
      rw [hft] at hres
      simp only [] at hres
      rw [Except.ok.injEq] at hres
      subst hres
      rw [List.mem_map] at hcw
      obtain ⟨c0, hc0, hcweq⟩ := hcw
      subst hcweq
      rw [List.mem_map] at hmem
      obtain ⟨r, hr, hrid⟩ := hmem
      rw [sortComments, mem_sortList, List.mem_filter] at hr
      obtain ⟨hrmem, hrcond⟩ := hr
      have hrdel : r.isDeleted = false := by
        cases hd : r.isDeleted with
        | false => rfl
        | true => rw [hd] at hrcond; simp at hrcond
      obtain ⟨a, hamem, hcase⟩ :=
        mem_writeBack Comment.id cid (softDelete now) db.comments r hrmem
      rcases hcase with ⟨hkey, hra⟩ | ⟨hkey, hra⟩
      · have hsd : (softDelete now a).isDeleted = true := by
          unfold softDelete
          rw [(commentPreSave_fields _ _ _).2.2.1]
        rw [hra, hsd] at hrdel
        cases hrdel
      · rw [hra] at hrid
        rw [hrid] at hkey
        simp at hkey

/-- C7 (witness): the amended soft-delete behavior instantiated for the
reply `c2` of `dbComments`, deleted by its author. -/
theorem softDeleteWitness :
    ∃ db2, deleteComment dbComments ⟨"a", "user"⟩ "c2" 10 = .ok db2 ∧
      (∀ c2, findComment db2 "c2" = some c2 →
        c2.content = tombstone ∧ c2.isDeleted = true) ∧
      (∀ page limit res, getComments db2 cReply.task page limit = .ok res →
        ∀ cw ∈ res.comments, "c2" ∉ cw.replies.map Comment.id) :=
  softDeleteAmended dbComments ⟨"a", "user"⟩ "c2" 10 cReply (by rfl)
    (Or.inl rfl)

/-! ### C8 — pagination objects of the list endpoints -/

/-- C8 (counterexample): the comment listing's pagination object carries no
`hasNext`/`hasPrev` keys at all (the source builds only
`current/pages/total/limit` there), refuting the claim that every list
endpoint returns all six fields. -/
theorem commentPaginationLacksHasNext :
    (okComments (getComments dbComments "t1" 1 20)).map
      (fun r => (r.pagination.hasNext, r.pagination.hasPrev))
      = some (none, none) := by decide

/-- C8 (amended): the project and task listings return the six-field
pagination object with `hasNext = current*limit < total`,
`hasPrev = current > 1`, and `pages` the least page count covering `total`
(`Math.ceil(total/limit)` for a positive limit); the comment listing returns
only `current/pages/total/limit`, omitting `hasNext` and `hasPrev`. -/
theorem paginationAmended (db : DB) (req : Requester) (qp : ProjectQuery)
    (qt : TaskQuery) (now : Nat) (taskId : String) (page limit : Nat)
    (pgP pgT : Pagination) (resC : CommentsResult)
    (hP : pgP = (getProjects db req qp).pagination)
    (hT : pgT = (getTasks db req qt now).pagination)
    (hC : getComments db taskId page limit = .ok resC) :
    (pgP.current = qp.page ∧ pgP.limit = qp.limit ∧
     pgP.hasNext = some (decide (pgP.current * pgP.limit < pgP.total)) ∧
     pgP.hasPrev = some (decide (1 < pgP.current)) ∧
     (0 < pgP.limit → ∀ k, pgP.pages ≤ k ↔ pgP.total ≤ k * pgP.limit)) ∧
    (pgT.current = qt.page ∧ pgT.limit = qt.limit ∧
     pgT.hasNext = some (decide (pgT.current * pgT.limit < pgT.total)) ∧
     pgT.hasPrev = some (decide (1 < pgT.current)) ∧
     (0 < pgT.limit → ∀ k, pgT.pages ≤ k ↔ pgT.total ≤ k * pgT.limit)) ∧
    (resC.pagination.current = page ∧ resC.pagination.limit = limit ∧
     resC.pagination.hasNext = none ∧ resC.pagination.hasPrev = none ∧
     (0 < limit → ∀ k, resC.pagination.pages ≤ k ↔
        resC.pagination.total ≤ k * limit)) := by
  refine ⟨?_, ?_, ?_⟩
  · subst hP
    exact ⟨rfl, rfl, rfl, rfl, fun hl k => jsPages_le_iff _ _ k hl⟩
  · subst hT
    exact ⟨rfl, rfl, rfl, rfl, fun hl k => jsPages_le_iff _ _ k hl⟩
  · unfold getComments at hC
    cases hft : findTask db taskId with
    | none => rw [hft] at hC; exact absurd hC (by simp)
    | some t0 =>
      rw [hft] at hC
      simp only [] at hC
      rw [Except.ok.injEq] at hC
      subst hC
      exact ⟨rfl, rfl, rfl, rfl, fun hl k => jsPages_le_iff _ _ k hl⟩

/-- C8 (witness): the pagination characterization instantiated on
`dbComments` with the default queries. -/
theorem paginationWitness :
    (pgProjectsW.current = ({} : ProjectQuery).page ∧
     pgProjectsW.limit = ({} : ProjectQuery).limit ∧
     pgProjectsW.hasNext
       = some (decide (pgProjectsW.current * pgProjectsW.limit < pgProjectsW.total)) ∧
     pgProjectsW.hasPrev = some (decide (1 < pgProjectsW.current)) ∧
     (0 < pgProjectsW.limit → ∀ k, pgProjectsW.pages ≤ k ↔
        pgProjectsW.total ≤ k * pgProjectsW.limit)) ∧
    (pgTasksW.current = ({} : TaskQuery).page ∧
     pgTasksW.limit = ({} : TaskQuery).limit ∧
     pgTasksW.hasNext
       = some (decide (pgTasksW.current * pgTasksW.limit < pgTasksW.total)) ∧
     pgTasksW.hasPrev = some (decide (1 < pgTasksW.current)) ∧
     (0 < pgTasksW.limit → ∀ k, pgTasksW.pages ≤ k ↔
        pgTasksW.total ≤ k * pgTasksW.limit)) ∧
    (resCommentsW.pagination.current = 1 ∧ resCommentsW.pagination.limit = 20 ∧
     resCommentsW.pagination.hasNext = none ∧
     resCommentsW.pagination.hasPrev = none ∧
     (0 < 20 → ∀ k, resCommentsW.pagination.pages ≤ k ↔
        resCommentsW.pagination.total ≤ k * 20)) :=
  paginationAmended dbComments reqOwner {} {} 0 "t1" 1 20 pgProjectsW pgTasksW
    resCommentsW (by decide) (by decide) (by rfl)

/-! ### C9 — double-toggling a subtask -/

/-- C9 (counterexample): the subtask `s1` of `tDone` starts COMPLETED; after
two toggles it is completed again, but `completedAt` is the second toggle's
fresh date (`some 20`), not cleared — refuting the claim that the second
toggle always clears `completedAt`. -/
theorem doubleToggleCompletedSubtask :
    ((okFst (toggleSubtask dbOne "t1" "s1" 10)).bind (fun d1 =>
      okSnd (toggleSubtask d1 "t1" "s1" 20))).map
      (fun l => l.map (fun s => (s.isCompleted, s.completedAt)))
    = some [(true, some 20)] := by decide

/-- C9 (amended): toggling a resolvable subtask twice always restores its
original `isCompleted` value; the second toggle leaves `completedAt = none`
exactly when the subtask was originally incomplete (false → true → false),
and stamps the second toggle's date when it was originally complete
(true → false → true). -/
theorem doubleToggleAmended (db : DB) (tid sid : String) (now1 now2 : Nat)
    (t : Task) (st : Subtask) (ht : findTask db tid = some t)
    (hs : t.subtasks.find? (fun s => s.id == sid) = some st) :
    ∃ db1 l1 db2 l2, toggleSubtask db tid sid now1 = .ok (db1, l1) ∧
      toggleSubtask db1 tid sid now2 = .ok (db2, l2) ∧
      l2.find? (fun s => s.id == sid) = some
        { id := st.id, title := st.title, isCompleted := st.isCompleted,
          completedAt := if st.isCompleted then some now2 else none } := by
  have h1 : toggleSubtask db tid sid now1
      = .ok ({ db with
                 tasks := writeBack Task.id tid (toggleIn sid now1) db.tasks },
             (toggleIn sid now1 t).subtasks) := by
    unfold toggleSubtask
    simp only [ht, hs]
  have ht1 : findTask
      { db with tasks := writeBack Task.id tid (toggleIn sid now1) db.tasks }
      tid = some (toggleIn sid now1 t) :=
    findTask_writeBack db tid (toggleIn sid now1) (fun a => rfl) t ht
  have hs1 : (toggleIn sid now1 t).subtasks.find? (fun s => s.id == sid)
      = some (flipSubtask now1 st) := by
    show (writeBack Subtask.id sid (flipSubtask now1) t.subtasks).find?
      (fun s => s.id == sid) = some (flipSubtask now1 st)
    exact find_writeBack Subtask.id sid (flipSubtask now1) (fun a => rfl)
      t.subtasks st hs
  have h2 : toggleSubtask
      { db with tasks := writeBack Task.id tid (toggleIn sid now1) db.tasks }
      tid sid now2
      = .ok ({ db with
                 tasks := writeBack Task.id tid (toggleIn sid now2)
                   (writeBack Task.id tid (toggleIn sid now1) db.tasks) },
             (toggleIn sid now2 (toggleIn sid now1 t)).subtasks) := by
    unfold toggleSubtask
    simp only [ht1, hs1]
  refine ⟨_, _, _, _, h1, h2, ?_⟩
  have hfind2 : (toggleIn sid now2 (toggleIn sid now1 t)).subtasks.find?
      (fun s => s.id == sid)
      = some (flipSubtask now2 (flipSubtask now1 st)) := by
    show (writeBack Subtask.id sid (flipSubtask now2)
      (writeBack Subtask.id sid (flipSubtask now1) t.subtasks)).find?
      (fun s => s.id == sid) = some (flipSubtask now2 (flipSubtask now1 st))
    exact find_writeBack Subtask.id sid (flipSubtask now2) (fun a => rfl)
      (writeBack Subtask.id sid (flipSubtask now1) t.subtasks)
      (flipSubtask now1 st)
      (find_writeBack Subtask.id sid (flipSubtask now1) (fun a => rfl)
        t.subtasks st hs)
  rw [hfind2]
  cases hc : st.isCompleted <;> simp [flipSubtask, hc]

/-- C9 (witness): the double-toggle result for the completed subtask `s1` of
`tDone` in `dbOne`. -/
theorem doubleToggleWitness :
    ∃ db1 l1 db2 l2, toggleSubtask dbOne "t1" "s1" 10 = .ok (db1, l1) ∧
      toggleSubtask db1 "t1" "s1" 20 = .ok (db2, l2) ∧
      l2.find? (fun s => s.id == "s1") = some
        { id := "s1", title := "S", isCompleted := true,
          completedAt := if true then some 20 else none } := by
  have h := doubleToggleAmended dbOne "t1" "s1" 10 20 tDone
    { id := "s1", title := "S", isCompleted := true, completedAt := some 3 }
    (by rfl) (by rfl)
  exact h

/-! ### C10 — registration can never create an admin -/

/-- C10: whenever `register` creates an account, the stored role is never
`admin`: a request asking for `admin` gets `user`, any other request gets
the requested role (default `user`), and the only document added to the
users collection is that account. -/
theorem registerNeverAdmin (db : DB) (body : RegisterBody) (newId : String)
    (fieldsOk : Bool) (db2 : DB) (u : User)
    (h : register db body newId fieldsOk = .ok (db2, u)) :
    u.role ≠ "admin" ∧
    (body.role = some "admin" → u.role = "user") ∧
    u.role = (if body.role == some "admin" then "user"
              else body.role.getD "user") ∧
    db2.users = db.users ++ [u] := by
  unfold register at h
  split at h
  next hrole =>
    simp only [] at h
    split at h
    · exact absurd h (by simp)
    · split at h
      · exact absurd h (by simp)
      · rw [Except.ok.injEq, Prod.mk.injEq] at h
        obtain ⟨h1, h2⟩ := h
        subst h1
        subst h2
        refine ⟨by simp, fun _ => rfl, ?_, rfl⟩
        simp [hrole]
  next hrole =>
    simp only [] at h
    split at h
    · exact absurd h (by simp)
    · split at h
      · exact absurd h (by simp)
      · rw [Except.ok.injEq, Prod.mk.injEq] at h
        obtain ⟨h1, h2⟩ := h
        subst h1
        subst h2
        refine ⟨?_, ?_, ?_, rfl⟩
        · show body.role.getD "user" ≠ "admin"
          cases hb : body.role with
          | none => simp
          | some r =>
            rw [hb] at hrole
            simp only [Option.getD_some]
            intro hra
            subst hra
            exact hrole (by simp)
        · intro hadm
          rw [hadm] at hrole
          exact absurd (by simp) hrole
        · simp [hrole]

/-- C10 (witness): registering with the requested role `admin` creates the
account `uReg` whose stored role is `user`. -/
theorem registerNeverAdminWitness :
    uReg.role ≠ "admin" ∧
    (regBody.role = some "admin" → uReg.role = "user") ∧
    uReg.role = (if regBody.role == some "admin" then "user"
                 else regBody.role.getD "user") ∧
    dbReg.users = dbEmpty.users ++ [uReg] :=
  registerNeverAdmin dbEmpty regBody "u1" true dbReg uReg (by rfl)

end TaskApp
